import Mathlib

/-!
# W-ORM: a shallow embedding of the query-and-transaction core

This file embeds the core of the `w-orm` TypeScript library (an ORM over
IndexedDB) in Lean 4 and proves properties of it.  Field values that the
query engine compares are modelled as integers; a JavaScript value that may
be `undefined` is modelled as `Option Int` (with `none` standing for
`undefined`).  IndexedDB itself (stores, indexes, cursors) is an external
collaborator of the library; its cursor semantics are modelled explicitly
where a claim needs them.
-/

namespace WOrm

/-! ## `BetweenFilter` (src/query.ts) -/

/-- The range filter of `src/query.ts` (`class BetweenFilter`): an optional
lower and upper bound, each with an open/closed flag.  `null`/`undefined`
bounds are modelled as `none`. -/
structure BetweenFilter where
  lower : Option Int
  upper : Option Int
  lowerOpen : Bool
  upperOpen : Bool
deriving Repr, DecidableEq

/-- `Between` (src/query.ts): factory for `BetweenFilter`, with both open
flags defaulting to `false` as in the source. -/
def Between (lower upper : Option Int) (lowerOpen : Bool := false)
    (upperOpen : Bool := false) : BetweenFilter :=
  ⟨lower, upper, lowerOpen, upperOpen⟩

/-- `BetweenFilter.fits` (src/query.ts).  The value handed to `fits` by the
query engine is the row's field value and may be `undefined` (`none`); a
JavaScript comparison against `undefined` is always `false`, while a
`null`/`undefined` *bound* makes that side of the comparison pass. -/
def BetweenFilter.fits (f : BetweenFilter) (value : Option Int) : Bool :=
  let lowerCmp :=
    match f.lower with
    | none => true
    | some l =>
      match value with
      | none => false
      | some v => if f.lowerOpen then decide (v > l) else decide (v ≥ l)
  let upperCmp :=
    match f.upper with
    | none => true
    | some u =>
      match value with
      | none => false
      | some v => if f.upperOpen then decide (v < u) else decide (v ≤ u)
  lowerCmp && upperCmp

/-! ## IndexedDB key ranges

`BetweenFilter.keyRange()` substitutes an unset bound with the sentinel keys
`BetweenFilter.minKey = -Infinity` (below every IndexedDB key) and
`BetweenFilter.maxKey = [[]]` (above every scalar key).  For integer-valued
fields the resulting key space is modelled by `IKey`: the two sentinels plus
the scalar values, linearly ordered with `minK` at the bottom and `maxK` at
the top. -/

/-- An IndexedDB key as used by the library's key ranges: the `minKey`
sentinel, a scalar value, or the `maxKey` sentinel. -/
inductive IKey where
  | minK : IKey
  | val : Int → IKey
  | maxK : IKey
deriving Repr, DecidableEq

/-- Strict comparison of `IKey`s: `minK < val v < maxK`, values ordered as
integers. -/
def IKey.lt : IKey → IKey → Bool
  | .minK, .minK => false
  | .minK, _ => true
  | .val _, .minK => false
  | .val a, .val b => decide (a < b)
  | .val _, .maxK => true
  | .maxK, _ => false

/-- Non-strict comparison of `IKey`s. -/
def IKey.le (a b : IKey) : Bool := a.lt b || decide (a = b)

/-- A native `IDBKeyRange`: two bounds with open flags. -/
structure KeyRange where
  lower : IKey
  upper : IKey
  lowerOpen : Bool
  upperOpen : Bool
deriving Repr, DecidableEq

/-- Membership of a key in a key range (the storage engine's test that
determines which index entries a bounded cursor visits). -/
def KeyRange.containsKey (r : KeyRange) (k : IKey) : Bool :=
  (if r.lowerOpen then r.lower.lt k else r.lower.le k)
    && (if r.upperOpen then k.lt r.upper else k.le r.upper)

/-- `IDBKeyRange.only(v)`: the degenerate closed range `[v, v]`. -/
def KeyRange.only (v : Int) : KeyRange := ⟨.val v, .val v, false, false⟩

/-- `BetweenFilter.keyRange` (src/query.ts): unset bounds are substituted
with the `minKey`/`maxKey` sentinels; the open flags are kept. -/
def BetweenFilter.keyRange (f : BetweenFilter) : KeyRange :=
  { lower := match f.lower with | none => .minK | some l => .val l
    upper := match f.upper with | none => .maxK | some u => .val u
    lowerOpen := f.lowerOpen
    upperOpen := f.upperOpen }

/-! ## Rows and filters -/

/-- A stored row: a JavaScript object, modelled as an association list from
field names to integer values.  A field absent from the list is
`undefined`. -/
abbrev Row := List (String × Int)

/-- Property access `row[field]`; `none` is `undefined`. -/
def Row.get (r : Row) (field : String) : Option Int :=
  match r.find? (fun p => p.fst = field) with
  | none => none
  | some p => some p.snd

/-- One entry of a query's filter map: a literal value, a `BetweenFilter`,
or a predicate function. -/
inductive FilterVal where
  | lit : Int → FilterVal
  | between : BetweenFilter → FilterVal
  | pred : (Option Int → Bool) → FilterVal

/-- `typeof value !== 'function'`: every filter entry except a predicate. -/
def FilterVal.isSimple : FilterVal → Bool
  | .pred _ => false
  | _ => true

/-- A query's filter map, in insertion order (JavaScript object entries of
string keys enumerate in insertion order). -/
abbrev Filters := List (String × FilterVal)

/-- `Query._fitsFilters` (src/query.ts): every filter entry must accept the
row — literals by strict equality, `BetweenFilter`s via `fits`, predicate
functions by returning a truthy value. -/
def fitsFilters (filters : Filters) (row : Row) : Bool :=
  filters.all fun kv =>
    match kv.snd with
    | .lit v => row.get kv.fst == some v
    | .between b => b.fits (row.get kv.fst)
    | .pred p => p (row.get kv.fst)

/-- `Query._getKeyRange` (src/query.ts): a `BetweenFilter` contributes its
key range, any other value an `only` range. -/
def getKeyRange : FilterVal → KeyRange
  | .between b => b.keyRange
  | .lit v => KeyRange.only v
  | .pred _ => KeyRange.only 0  -- unreachable: only simple filters are pushed down

/-- `Query._findSimpleFilter` (src/unnamed/part_009): the first filter entry
whose value is not a function and whose key is an indexable field. -/
def findSimpleFilter (indexableFields : List String)
    (filters : Filters) : Option (String × FilterVal) :=
  filters.find? fun kv => kv.snd.isSimple && indexableFields.contains kv.fst

/-! ## Query state -/

/-- The mutable builder state of `class Query` (src/unnamed/part_009). -/
structure Query where
  filters : Filters
  orderByField : Option String
  indexName : Option String
  indexQuery : Option BetweenFilter
  reverseFlag : Bool
  limitVal : Option Nat
  skipVal : Option Nat

/-- Cursor iteration direction (`'next'`/`'prev'`). -/
inductive Direction where
  | next : Direction
  | prev : Direction
deriving Repr, DecidableEq

/-- The cursor source chosen by `Query._getCursor`: either an index cursor
(with an optional bounding range) or a full-store cursor, each with a
direction. -/
inductive CursorSrc where
  | indexCursor : String → Option KeyRange → Direction → CursorSrc
  | storeCursor : Direction → CursorSrc
deriving Repr, DecidableEq

/-- `Query._getCursor` (src/unnamed/part_009): explicit index first, then
the ordering field's index, then a single-field index pushdown of the first
simple filter, else a full-store cursor. -/
def getCursor (indexableFields : List String) (q : Query) : CursorSrc :=
  let dir := if q.reverseFlag then Direction.prev else Direction.next
  match q.indexName with
  | some i => .indexCursor i (q.indexQuery.map BetweenFilter.keyRange) dir
  | none =>
    match q.orderByField with
    | some f => .indexCursor f none dir
    | none =>
      match findSimpleFilter indexableFields q.filters with
      | some kv => .indexCursor kv.fst (some (getKeyRange kv.snd)) dir
      | none => .storeCursor dir

/-! ## Cursor iteration (`Query._cursorLogic`, src/unnamed/part_009)

`_cursorLogic` drives a cursor and maintains two counters: `matched`
(filter-passing rows seen) and `skipped` (filter-passing rows consumed by
the offset).  On every cursor step it

* stops when the cursor is exhausted,
* stops when `matched - skipped === this._limit`,
* ignores rows failing `_fitsFilters` (no counter changes),
* skips a passing row while `matched` is below the offset,
* otherwise yields the row to the terminal operation's callback and stops
  early if the callback returns `true`.

`cursorLogic` returns the list of rows yielded to the callback, for the
rows the cursor visits in visiting order.  `stop` is the callback's return
value for a yielded row. -/
def cursorLogic (filters : Filters) (skipVal limitVal : Option Nat)
    (stop : Row → Bool) :
    List Row → Nat → Nat → List Row
  | [], _, _ => []
  | row :: rest, matched, skipped =>
    if limitVal = some (matched - skipped) then []
    else if fitsFilters filters row then
      if (match skipVal with
          | none => true
          | some s => decide (s = 0) || decide (matched ≥ s)) then
        if stop row then [row]
        else row :: cursorLogic filters skipVal limitVal stop rest
          (matched + 1) skipped
      else cursorLogic filters skipVal limitVal stop rest
        (matched + 1) (skipped + 1)
    else cursorLogic filters skipVal limitVal stop rest matched skipped

/-- Rows yielded by a full run of `_cursorLogic` for a query, starting with
both counters at `0`, given the rows its cursor visits. -/
def Query.yielded (q : Query) (stop : Row → Bool) (visited : List Row) :
    List Row :=
  cursorLogic q.filters q.skipVal q.limitVal stop visited 0 0

/-- `Query.all`: accumulates every yielded row (its callback returns
`false`, so it never stops early). -/
def Query.allRes (q : Query) (visited : List Row) : List Row :=
  q.yielded (fun _ => false) visited

/-- `Query.count`: counts yielded rows. -/
def Query.countRes (q : Query) (visited : List Row) : Nat :=
  (q.yielded (fun _ => false) visited).length

/-- `Query.first`: its callback stores the row and returns `true`, so the
result is the first yielded row, or `null`. -/
def Query.firstRes (q : Query) (visited : List Row) : Option Row :=
  (q.yielded (fun _ => true) visited).head?

/-! ## The rows visited by each cursor source

The storage engine (external collaborator, spec §6) backs each cursor:

* a full-store cursor visits every stored row;
* an index cursor on field `f` visits exactly the rows whose `f` value is a
  defined key inside the bounding range (rows lacking the field have no
  index entry), ordered by that key. -/

/-- Whether an index entry for `field` of `row` exists and lies in `r`. -/
def rowInIndexRange (field : String) (r : KeyRange) (row : Row) : Bool :=
  match row.get field with
  | none => false
  | some v => r.containsKey (.val v)

/-- Comparison of rows by their `field` key, for index ordering. -/
def rowKeyLE (field : String) (a b : Row) : Prop :=
  (a.get field).getD 0 ≤ (b.get field).getD 0

instance (field : String) : DecidableRel (rowKeyLE field) := fun a b =>
  inferInstanceAs (Decidable ((a.get field).getD 0 ≤ (b.get field).getD 0))

/-- The rows visited by an index cursor on `field` bounded by `r`, given the
stored rows: the rows with an index entry in range, in index (key) order. -/
def indexVisited (field : String) (r : KeyRange) (rows : List Row) :
    List Row :=
  (rows.filter (rowInIndexRange field r)).insertionSort (rowKeyLE field)

/-! ## Errors (src/unnamed/part_005 / src/src/connection.ts)

`WormError extends Error` is the base class; `ConnectionError` and
`ModelError` extend it.  Each constructor tags the instance by assigning
`this.name`. -/

/-- The error classes declared by the library. -/
inductive ErrorClass where
  | wormError : ErrorClass
  | connectionError : ErrorClass
  | modelError : ErrorClass
deriving Repr, DecidableEq

/-- The `this.name` tag each constructor assigns. -/
def ErrorClass.tag : ErrorClass → String
  | .wormError => "WormError"
  | .connectionError => "ConnectionError"
  | .modelError => "ModelError"

/-- A library error value: the class it was constructed from plus its
message. -/
structure WError where
  cls : ErrorClass
  message : String
deriving Repr, DecidableEq

/-- The `name` property of an error instance. -/
def WError.name (e : WError) : String := e.cls.tag

/-- `e instanceof C`: `ConnectionError` and `ModelError` both extend
`WormError`, so every library error is an instance of `WormError`. -/
def WError.isInstanceOf (e : WError) (c : ErrorClass) : Bool :=
  e.cls = c || c = .wormError

/-- The "callback is still pending" error thrown by `Transaction`
(src/unnamed/part_012, line 110): a bare `WormError`. -/
def callbackPendingError : WError :=
  ⟨.wormError,
    "The transaction committed, but the callback is still pending. Make sure to not await any non transactional operation in it."⟩

/-- The internal error thrown by `Query._cursorLogic` when a cursor request
has no transaction (src/unnamed/part_009, line 417): also a bare
`WormError`. -/
def noTransactionFoundError : WError := ⟨.wormError, "No transaction found"⟩

/-- The error thrown by `_objectStore`/`Transaction`/`init` paths when no
connection is established. -/
def notConnectedError : WError :=
  ⟨.connectionError, "Database is not connected"⟩

/-- The validation error thrown by `Model.create` for an unset non-nullable
field without a default (src/src/models.ts, line 77). -/
def notNullableError (field : String) : WError :=
  ⟨.modelError, "Field " ++ field ++ " is not nullable"⟩

/-! ## The transaction coordinator (`Transaction`, src/unnamed/part_012)

`Transaction(mode, models, callback)` opens one native transaction over
`models.map(model => model.name)`, attaches a promise for the transaction's
natural completion, wraps the callback so that its resolution sets
`callbackDone` and commits (resp. its rejection sets `callbackDone` and
aborts), races the two promises, and finally throws the distinct
"callback is still pending" `WormError` if the race was won while
`callbackDone` is still false.

The asynchronous race is embedded by an oracle (`RaceWinner`) saying which
promise settles first; the callback's own outcome and the transaction's
natural outcome are further oracles.  The model returns the outer promise's
settlement together with the list of engine actions the coordinator
performed, in order. -/

/-- Registered metadata of a record type: its class name and its effective
store name (`TablesMetadata[name].tableName`, which defaults to the class
name but is overridable via the `@Table({name})` decorator option). -/
structure ModelMeta where
  name : String
  tableName : String
deriving Repr, DecidableEq

/-- Engine actions the coordinator can perform. -/
inductive TxAction where
  | openTx : List String → String → TxAction
  | commit : TxAction
  | abort : TxAction
deriving Repr, DecidableEq

/-- How the user callback settles. -/
inductive CbOutcome (α : Type) where
  | resolves : α → CbOutcome α
  | rejects : WError → CbOutcome α
deriving Repr, DecidableEq

/-- The transaction's natural completion signal: `oncomplete` or
`onerror`. -/
inductive TxNatural where
  | committed : TxNatural
  | errored : WError → TxNatural
deriving Repr, DecidableEq

/-- Which of the two raced promises settles first. -/
inductive RaceWinner where
  | callbackSettles : RaceWinner
  | txCompletes : RaceWinner
deriving Repr, DecidableEq

/-- `Transaction` (src/unnamed/part_012): result of the outer promise and
the ordered engine actions, given the race oracle. -/
def Transaction (α : Type) (connected : Bool) (mode : String)
    (models : List ModelMeta) (winner : RaceWinner) (cb : CbOutcome α)
    (naturalOutcome : TxNatural) : Except WError α × List TxAction :=
  if !connected then (.error notConnectedError, [])
  else
    let stores := models.map (fun m => m.name)
    let opened := TxAction.openTx stores mode
    match winner with
    | .callbackSettles =>
      -- the callback settled first: its `.then`/`.catch` wrapper runs,
      -- sets `callbackDone = true` and commits/aborts; the race then
      -- returns the callback's outcome and `callbackDone` is observed true
      match cb with
      | .resolves x => (.ok x, [opened, .commit])
      | .rejects e => (.error e, [opened, .abort])
    | .txCompletes =>
      -- the transaction completed naturally while the callback is pending
      match naturalOutcome with
      | .committed =>
        -- `transactionPromise` resolves, `callbackDone` is false:
        -- the distinct `WormError` is thrown
        (.error callbackPendingError, [opened])
      | .errored e =>
        -- `transactionPromise` rejects: `await Promise.race` re-throws the
        -- transaction's own error before the `callbackDone` check
        (.error e, [opened])

/-- The stores a transaction over these record types ought to span: each
type's effective storage name (spec §3/§4.4). -/
def effectiveStores (models : List ModelMeta) : List String :=
  models.map (fun m => m.tableName)

/-- The store names `Transaction` actually requests. -/
def requestedStores (α : Type) (connected : Bool) (mode : String)
    (models : List ModelMeta) (winner : RaceWinner) (cb : CbOutcome α)
    (naturalOutcome : TxNatural) : List (List String) :=
  (Transaction α connected mode models winner cb naturalOutcome).snd.filterMap
    fun a => match a with
      | .openTx stores _ => some stores
      | _ => none

/-! ## The global connection (`init`, src/src/connection.ts)

`init(dbName, version)` builds a promise.  The executor first checks
`db.connected` and, if connected, resolves immediately with the existing
session and `upgraded: false` — but it does *not* return, so it still calls
`indexedDB.open(...)` and installs handlers.  When the open request later
succeeds, `_updateDB` overwrites the global `db` (session, name, version)
with the freshly opened connection, and a second `resolve` is attempted
(which a settled promise ignores).

Sessions (`IDBDatabase` handles) are modelled by numeric identifiers; the
open request's eventual event is an oracle. -/

/-- The mutable global `db` object. -/
inductive DBState where
  | disconnected : DBState
  | connection : Nat → String → Nat → DBState  -- session, name, version
deriving Repr, DecidableEq

/-- `init`'s resolution value. -/
structure InitResponse where
  session : Nat
  upgraded : Bool
deriving Repr, DecidableEq

/-- Which event the `indexedDB.open` request eventually fires (the
no-upgrade paths; a version bump instead fires `onupgradeneeded`). -/
inductive OpenOutcome where
  | success : OpenOutcome
  | failure : OpenOutcome
deriving Repr, DecidableEq

/-- First settlement wins: a promise that is already settled ignores later
`resolve`/`reject` calls. -/
def settleOnce (cur : Option (Except Unit InitResponse))
    (v : Except Unit InitResponse) : Option (Except Unit InitResponse) :=
  match cur with
  | some c => some c
  | none => some v

/-- `init` (src/src/connection.ts): the promise's settlement and the final
global `db` state, given the open request's outcome oracle and the `newSession`
handle the host would produce for the fresh connection. -/
def init (st : DBState) (dbName : String) (version : Nat) (newSession : Nat)
    (outcome : OpenOutcome) : Option (Except Unit InitResponse) × DBState :=
  -- `if (db.connected) resolve({session: db.session, upgraded: false})`
  -- (no early return)
  let pending : Option (Except Unit InitResponse) :=
    match st with
    | .connection s _ _ => some (.ok ⟨s, false⟩)
    | .disconnected => none
  -- `const request = indexedDB.open(dbName, version)` and its handlers
  match outcome with
  | .failure =>
    -- `request.onerror`: `reject(event)`; the global state is untouched
    (settleOnce pending (.error ()), st)
  | .success =>
    -- `request.onsuccess`: `_updateDB(request.result, dbName, version)`
    -- overwrites the global `db`, then `resolve({session: request.result,
    -- upgraded: false})`
    (settleOnce pending (.ok ⟨newSession, false⟩),
      .connection newSession dbName version)

/-! ## `Query.clone` and the prototype chain (src/unnamed/part_009)

`clone()` sets the clone's filter map to `Object.create(this.filters)`: a
fresh object with no own properties whose prototype *is* the original's
filter map.  `filter(...)` then merges entries into the receiver's own
properties via `Object.assign`.  To reason about this aliasing, filter-map
objects live on an explicit heap addressed by numeric references; property
reads walk the prototype chain. -/

/-- A JavaScript object used as a filter map: own properties plus an
optional prototype reference. -/
structure FilterObj (V : Type) where
  own : List (String × V)
  proto : Option Nat

/-- The heap of filter-map objects; a reference is a position. -/
abbrev Heap (V : Type) := List (FilterObj V)

/-- Own-property write `obj[k] = v`: replace the entry if the key is an own
key, else append it. -/
def FilterObj.setOwn (o : FilterObj V) (k : String) (v : V) : FilterObj V :=
  { o with
    own :=
      if (o.own.find? (fun p => p.fst = k)).isSome then
        o.own.map (fun p => if p.fst = k then (k, v) else p)
      else o.own ++ [(k, v)] }

/-- `Object.assign(target, {k: v})` on the object behind reference `i`
(the mutation `Query.filter` performs on its filter map). -/
def Heap.assign (h : Heap V) (i : Nat) (k : String) (v : V) : Heap V :=
  match h[i]? with
  | some o => h.set i (o.setOwn k v)
  | none => h

/-- `Object.create(proto)` (the allocation `Query.clone` performs): a new
object with no own properties whose prototype is the object behind
`protoRef`.  Returns the extended heap and the new reference. -/
def Heap.create (h : Heap V) (protoRef : Nat) : Heap V × Nat :=
  (h ++ [⟨[], some protoRef⟩], h.length)

/-- `Object.getOwnPropertyNames`-style read: the own property `k` of the
object behind `i`, not consulting the prototype chain. -/
def Heap.ownLookup (h : Heap V) (i : Nat) (k : String) : Option V :=
  match h[i]? with
  | some o => (o.own.find? (fun p => p.fst = k)).map (fun p => p.snd)
  | none => none

/-- Ordinary property read `obj[k]`: own properties first, then the
prototype chain (fuelled by the chain length). -/
def Heap.protoLookup (h : Heap V) : Nat → Nat → String → Option V
  | 0, _, _ => none
  | fuel + 1, i, k =>
    match h[i]? with
    | none => none
    | some o =>
      match o.own.find? (fun p => p.fst = k) with
      | some p => some p.snd
      | none =>
        match o.proto with
        | none => none
        | some j => h.protoLookup fuel j k

/-! ## `Model.create` (src/src/models.ts)

`create(values)` copies `values` onto a fresh instance, then walks the
registered field descriptors: an unset field receives its static default,
or its generator default's result (the generator is invoked right there),
or — non-nullable without default — `create` throws
`ModelError("Field ... is not nullable")` before any store access.
Otherwise the instance is persisted with `store.add` (insert-only: the
engine raises a constraint error if the key already exists). -/

/-- A field's declared default: a plain value or a zero-argument generator
(`fieldOpts.default instanceof Function`). -/
inductive FieldDefault (V : Type) where
  | value : V → FieldDefault V
  | gen : (Unit → V) → FieldDefault V

/-- A field descriptor (`FieldOptions`, src/src/types.ts).  `create` treats
a `default` that is `undefined` or `null` as absent, which `none` models. -/
structure FieldOpts (V : Type) where
  primaryKey : Bool := false
  unique : Bool := false
  nullable : Bool := true
  default : Option (FieldDefault V) := none
  index : Bool := true

/-- A model instance: a JavaScript object as an association list. -/
abbrev Inst (V : Type) := List (String × V)

/-- Property read on an instance; `none` is `undefined`. -/
def Inst.get (i : Inst V) (field : String) : Option V :=
  (i.find? (fun p => p.fst = field)).map (fun p => p.snd)

/-- Property write on an instance. -/
def Inst.set (i : Inst V) (field : String) (v : V) : Inst V :=
  if (i.find? (fun p => p.fst = field)).isSome then
    i.map (fun p => if p.fst = field then (field, v) else p)
  else i ++ [(field, v)]

/-- The defaults loop of `Model.create`, threading the instance and a log
of the fields whose generator default was invoked (one entry per
invocation).  Fails at the first unset, default-less, non-nullable
field. -/
def applyDefaults (fields : List (String × FieldOpts V)) (inst : Inst V)
    (genLog : List String) : Except WError (Inst V × List String) :=
  match fields with
  | [] => .ok (inst, genLog)
  | (field, fieldOpts) :: rest =>
    if (inst.get field).isNone then
      match fieldOpts.default with
      | some (.value v) => applyDefaults rest (inst.set field v) genLog
      | some (.gen g) =>
        applyDefaults rest (inst.set field (g ())) (genLog ++ [field])
      | none =>
        if !fieldOpts.nullable then .error (notNullableError field)
        else applyDefaults rest inst genLog
    else applyDefaults rest inst genLog

/-- How `create` can fail: a thrown validation `ModelError`, or the
engine's constraint error when `store.add` finds the key already
present. -/
inductive CreateError where
  | validation : WError → CreateError
  | keyExists : CreateError
deriving Repr

/-- The backing store's contents. -/
abbrev Store (V : Type) := List (Inst V)

/-- The primary-key component values of an instance, in declared key-field
order (`getPrimaryKeys`). -/
def instKeys (primaryKeys : List String) (inst : Inst V) : List (Option V) :=
  primaryKeys.map (fun k => inst.get k)

/-- `store.add(instance)` (insert-only): the engine rejects the write if a
record with the same key exists, else appends. -/
def storeAdd [DecidableEq V] (primaryKeys : List String) (store : Store V)
    (inst : Inst V) : Except CreateError (Store V) :=
  if store.any (fun r => decide (instKeys primaryKeys r = instKeys primaryKeys inst))
  then .error .keyExists
  else .ok (store ++ [inst])

/-- `Model.create` (src/src/models.ts): overlay `values`, apply defaults
(possibly throwing the validation error before any store access), then
persist insert-only.  Returns the settlement together with the resulting
store contents and the generator invocation log. -/
def Model.create [DecidableEq V] (fields : List (String × FieldOpts V))
    (primaryKeys : List String) (values : Inst V) (store : Store V) :
    Except CreateError (Inst V) × Store V × List String :=
  match applyDefaults fields values [] with
  | .error e => (.error (.validation e), store, [])
  | .ok (inst, genLog) =>
    match storeAdd primaryKeys store inst with
    | .error e => (.error e, store, genLog)
    | .ok store' => (.ok inst, store', genLog)

/-! ## Theorems -/

/-- C7: `Between(a, b)` with default open flags fits `v` iff `a ≤ v ≤ b`;
`Between(a, b, true, false)` fits `v` iff `a < v ≤ b`; and a null bound on
either side makes that side's comparison pass unconditionally (only the
set bound is checked; with both bounds unset everything fits, even an
undefined value). -/
theorem C7_between_fits (a b v : Int) (lo uo : Bool) (w : Option Int) :
    ((Between (some a) (some b)).fits (some v) = true ↔ a ≤ v ∧ v ≤ b)
    ∧ ((Between (some a) (some b) true false).fits (some v) = true ↔
        a < v ∧ v ≤ b)
    ∧ ((Between none (some b) lo false).fits (some v) = true ↔ v ≤ b)
    ∧ ((Between none (some b) lo true).fits (some v) = true ↔ v < b)
    ∧ ((Between (some a) none false uo).fits (some v) = true ↔ a ≤ v)
    ∧ ((Between (some a) none true uo).fits (some v) = true ↔ a < v)
    ∧ (Between none none lo uo).fits w = true := by
  simp [Between, BetweenFilter.fits, and_comm]

/-- C3 counterexample: the "callback is still pending" error is a bare
`WormError`, exactly like the internal "No transaction found" error raised
by `Query._cursorLogic` — same class, same `name` tag, same behaviour under
`instanceof` against every library error class — so no type/kind inspection
can distinguish the two; only their message texts differ. -/
theorem C3_error_kind_counterexample :
    callbackPendingError.cls = noTransactionFoundError.cls
    ∧ callbackPendingError.name = noTransactionFoundError.name
    ∧ (callbackPendingError.isInstanceOf .wormError
        = noTransactionFoundError.isInstanceOf .wormError)
    ∧ (callbackPendingError.isInstanceOf .connectionError
        = noTransactionFoundError.isInstanceOf .connectionError)
    ∧ (callbackPendingError.isInstanceOf .modelError
        = noTransactionFoundError.isInstanceOf .modelError)
    ∧ callbackPendingError.message ≠ noTransactionFoundError.message := by
  refine ⟨rfl, rfl, rfl, rfl, rfl, ?_⟩
  decide

/-- C3 amended: the "callback is still pending" error is a bare `WormError`,
so by type/kind a caller can distinguish it from connection errors
(`ConnectionError`) and model/validation errors (`ModelError`) — but not
from the library's other internal bare `WormError`s. -/
theorem C3_error_kind_amended (f : String) :
    callbackPendingError.name = "WormError"
    ∧ callbackPendingError.isInstanceOf .wormError = true
    ∧ callbackPendingError.isInstanceOf .connectionError = false
    ∧ callbackPendingError.isInstanceOf .modelError = false
    ∧ callbackPendingError.name ≠ notConnectedError.name
    ∧ callbackPendingError.name ≠ (notNullableError f).name := by
  refine ⟨rfl, rfl, by decide, by decide, by decide, ?_⟩
  intro h
  simp [callbackPendingError, notNullableError, WError.name,
    ErrorClass.tag] at h

/-- C1 counterexample: if the native transaction naturally *errors* while
the callback is still pending, the outer call rejects with the
transaction's own error, not with the distinct "callback is still pending"
`WormError` the claim requires for every premature natural completion. -/
theorem C1_natural_error_counterexample :
    (Transaction Nat true "readwrite" [] .txCompletes (.resolves 0)
        (.errored ⟨.wormError, "engine failure"⟩)).fst
      = .error ⟨.wormError, "engine failure"⟩
    ∧ (⟨.wormError, "engine failure"⟩ : WError) ≠ callbackPendingError := by
  exact ⟨rfl, by decide⟩

/-- C1 amended: if the callback settles first, the coordinator commits on
resolution and aborts on rejection, and the outer call carries the
callback's outcome; if the transaction naturally *commits* first, the outer
call rejects with the distinct "callback is still pending" error; if it
naturally *errors* first, the outer call rejects with the transaction's own
error (still rejecting rather than hanging). -/
theorem C1_transaction_race_amended (α : Type) (mode : String)
    (models : List ModelMeta) (x : α) (e : WError) (naturalOutcome : TxNatural) :
    Transaction α true mode models .callbackSettles (.resolves x)
        naturalOutcome
      = (.ok x, [.openTx (models.map (fun m => m.name)) mode, .commit])
    ∧ Transaction α true mode models .callbackSettles (.rejects e)
        naturalOutcome
      = (.error e, [.openTx (models.map (fun m => m.name)) mode, .abort])
    ∧ Transaction α true mode models .txCompletes (.resolves x) .committed
      = (.error callbackPendingError,
          [.openTx (models.map (fun m => m.name)) mode])
    ∧ Transaction α true mode models .txCompletes (.resolves x) (.errored e)
      = (.error e, [.openTx (models.map (fun m => m.name)) mode]) := by
  exact ⟨rfl, rfl, rfl, rfl⟩

/-- C2 counterexample: `Transaction` passes the record types' *class*
names to the engine, not their effective store names.  For a record type
whose store name is overridden (class `User`, store `users`), the single
opened transaction spans `["User"]`, which is not the store set `["users"]`
of the listed record type — that store is not in the transaction's scope at
all. -/
theorem C2_store_set_counterexample :
    requestedStores Nat true "readwrite" [⟨"User", "users"⟩]
        .callbackSettles (.resolves 0) .committed = [["User"]]
    ∧ effectiveStores [⟨"User", "users"⟩] = ["users"]
    ∧ (["User"] : List String) ≠ ["users"]
    ∧ ¬ ("users" ∈ (["User"] : List String)) := by
  refine ⟨rfl, rfl, by decide, by decide⟩

/-- C2 amended: when connected, exactly one native transaction is opened
and its store list is exactly the *class names* of the listed record
types; this coincides with the record types' store set whenever none of
them overrides its `tableName`. -/
theorem C2_store_set_amended (α : Type) (mode : String)
    (models : List ModelMeta) (winner : RaceWinner) (cb : CbOutcome α)
    (naturalOutcome : TxNatural) :
    requestedStores α true mode models winner cb naturalOutcome
      = [models.map (fun m => m.name)]
    ∧ ((∀ m ∈ models, m.tableName = m.name) →
        models.map (fun m => m.name) = effectiveStores models) := by
  constructor
  · unfold requestedStores Transaction
    cases winner with
    | callbackSettles => cases cb <;> simp [List.filterMap]
    | txCompletes => cases naturalOutcome <;> simp [List.filterMap]
  · intro h
    unfold effectiveStores
    exact (List.map_congr_left fun m hm => (h m hm).symm)

/-- C2 amended, witness: the amended statement at a concrete model list
with no `tableName` override. -/
theorem C2_store_set_amended_witness :
    requestedStores Nat true "readwrite" [⟨"User", "User"⟩]
        .callbackSettles (.resolves 0) .committed = [["User"]]
    ∧ (["User"] : List String) = effectiveStores [⟨"User", "User"⟩] := by
  have h := C2_store_set_amended Nat "readwrite" [⟨"User", "User"⟩]
    .callbackSettles (.resolves 0) .committed
  exact ⟨h.1, h.2 (by decide)⟩

/-- C8: the claim is right and the code is wrong.  `init`'s executor
resolves with the existing session when already connected, but it is
missing a `return`: it still calls `indexedDB.open` and, once that request
succeeds, `_updateDB` overwrites the global connection state with the fresh
connection.  Concretely: connected with session 1, a second `init` resolves
with session 1 (`upgraded: false`) yet leaves the global `db` pointing at
the new session 2 — the state is not left unmodified. -/
theorem C8_init_clobbers_connection :
    init (.connection 1 "db" 1) "db" 1 2 .success
      = (some (.ok ⟨1, false⟩), .connection 2 "db" 1)
    ∧ (DBState.connection 2 "db" 1) ≠ (DBState.connection 1 "db" 1) := by
  exact ⟨rfl, by decide⟩

/-! ### C4: filters, offset and limit in `_cursorLogic` -/

/-- The prefix of a yield list up to and including the first row on which
the terminal operation's callback signals early stop. -/
def takeToStop (stop : Row → Bool) : List Row → List Row
  | [] => []
  | r :: rs => if stop r then [r] else r :: takeToStop stop rs

theorem takeToStop_false (l : List Row) :
    takeToStop (fun _ => false) l = l := by
  induction l with
  | nil => rfl
  | cons r rs ih => simp [takeToStop, ih]

theorem takeToStop_eq_take (stop : Row → Bool) (l : List Row) :
    ∃ j, takeToStop stop l = l.take j := by
  induction l with
  | nil => exact ⟨0, rfl⟩
  | cons r rs ih =>
    by_cases h : stop r
    · exact ⟨1, by simp [takeToStop, h]⟩
    · obtain ⟨j, hj⟩ := ih
      exact ⟨j + 1, by simp [takeToStop, h, hj]⟩

theorem length_takeToStop_le (stop : Row → Bool) (l : List Row) :
    (takeToStop stop l).length ≤ l.length := by
  induction l with
  | nil => simp [takeToStop]
  | cons r rs ih =>
    by_cases h : stop r
    · simp [takeToStop, h]
    · simp [takeToStop, h]
      omega

/-- The invariant-carrying characterization of `_cursorLogic` with an
offset `k` and a limit `n`: from counters `matched = m`, `skipped = s`
(on every reachable state, `s = min m k` and `m - s ≤ n`), the yielded
rows are the next `n - (m - s)` filter-passing rows after dropping the
remaining `k - m` offset rows, cut at the callback's first stop signal. -/
theorem cursorLogic_eq_spec (fs : Filters) (k n : Nat) (stop : Row → Bool)
    (rows : List Row) :
    ∀ m s : Nat, ((m < k ∧ s = m) ∨ (k ≤ m ∧ s = k)) → m - s ≤ n →
      cursorLogic fs (some k) (some n) stop rows m s
        = takeToStop stop
            (((rows.filter (fitsFilters fs)).drop (k - m)).take (n - (m - s))) := by
  induction rows with
  | nil =>
    intro m s _ _
    simp [cursorLogic, takeToStop]
  | cons row rest ih =>
    intro m s hs hmn
    by_cases hlim : n = m - s
    · have h0 : n - (m - s) = 0 := by omega
      simp [cursorLogic, hlim, h0, takeToStop]
    · have hne : ¬ ((some n : Option Nat) = some (m - s)) := by
        simpa using hlim
      rw [cursorLogic, if_neg hne]
      by_cases hfit : fitsFilters fs row
      · rw [if_pos hfit, List.filter_cons_of_pos hfit]
        by_cases hskip : (decide (k = 0) || decide (m ≥ k)) = true
        · -- yield branch: the offset is exhausted (`m ≥ k`, or no offset)
          have hk : k = 0 ∨ m ≥ k := by
            rcases Bool.or_eq_true_iff.mp hskip with h | h
            · exact Or.inl (of_decide_eq_true h)
            · exact Or.inr (of_decide_eq_true h)
          have hks : s = k := by omega
          have hkm : k - m = 0 := by omega
          have hpos : n - (m - s) = (n - (m - s) - 1) + 1 := by omega
          rw [if_pos hskip, hkm, List.drop_zero, hpos, List.take_succ_cons,
            takeToStop]
          by_cases hstop : stop row
          · simp [hstop]
          · simp only [hstop, Bool.false_eq_true, if_false]
            have ihe := ih (m + 1) s (by omega) (by omega)
            have e1 : k - (m + 1) = 0 := by omega
            have e2 : n - (m + 1 - s) = n - (m - s) - 1 := by omega
            rw [ihe, e1, e2, List.drop_zero]
        · -- skip branch: the row matches but the offset swallows it
          have hk : ¬ (k = 0) ∧ ¬ (m ≥ k) := by
            have := Bool.or_eq_false_iff.mp (Bool.not_eq_true _ |>.mp hskip)
            exact ⟨of_decide_eq_false this.1, of_decide_eq_false this.2⟩
          have hsm : s = m := by omega
          have hd : k - m = (k - (m + 1)) + 1 := by omega
          have ht : n - (m - s) = n - (m + 1 - (s + 1)) := by omega
          rw [if_neg hskip, hd, List.drop_succ_cons, ht]
          exact ih (m + 1) (s + 1) (by omega) (by omega)
      · rw [if_neg hfit, List.filter_cons_of_neg hfit]
        exact ih m s hs hmn

/-- Helper: for a query with offset `k` and limit `n` (and no explicit
index or ordering), the yields of `_cursorLogic` are the stop-cut prefix of
rows `[k, k+n)` of the filter-passing visited rows. -/
theorem yielded_eq_takeToStop (fs : Filters) (k n : Nat) (stop : Row → Bool)
    (rows : List Row) :
    (Query.mk fs none none none false (some n) (some k)).yielded stop rows
      = takeToStop stop (((rows.filter (fitsFilters fs)).drop k).take n) := by
  have h := cursorLogic_eq_spec fs k n stop rows 0 0 (by omega) (by omega)
  simpa [Query.yielded] using h

/-- C4: for a query with filters `fs`, offset `k` and limit `n`, rows
failing a filter never touch the skip/limit counters; the terminal
operations see exactly rows `[k, k+n)` of the filter-passing visited rows:
`all` returns exactly that slice, every terminal operation's yield list is
a prefix of it (so at most `n` rows are ever yielded, and `first`/`forEach`
early stops only shorten it), and the number of yielded rows never exceeds
`n`. -/
theorem C4_pagination (fs : Filters) (k n : Nat) (rows : List Row)
    (stop : Row → Bool) :
    (Query.mk fs none none none false (some n) (some k)).allRes rows
      = ((rows.filter (fitsFilters fs)).drop k).take n
    ∧ (∃ j, (Query.mk fs none none none false (some n) (some k)).yielded
          stop rows
        = (((rows.filter (fitsFilters fs)).drop k).take n).take j)
    ∧ ((Query.mk fs none none none false (some n) (some k)).yielded
        stop rows).length ≤ n := by
  refine ⟨?_, ?_, ?_⟩
  · rw [Query.allRes, yielded_eq_takeToStop, takeToStop_false]
  · obtain ⟨j, hj⟩ :=
      takeToStop_eq_take stop (((rows.filter (fitsFilters fs)).drop k).take n)
    exact ⟨j, by rw [yielded_eq_takeToStop, hj]⟩
  · rw [yielded_eq_takeToStop]
    calc (takeToStop stop
            (((rows.filter (fitsFilters fs)).drop k).take n)).length
        ≤ (((rows.filter (fitsFilters fs)).drop k).take n).length :=
          length_takeToStop_le _ _
      _ ≤ n := by simp [List.length_take]

/-! ### C5: cursor/index selection -/

/-- Modelled from the claim's words (spec §4.2 rule 3 as stated): the
single-field pushdown applies only when *exactly one* filter entry targets
an indexed field with a non-predicate value; otherwise rule 4 (full-store
cursor) applies.  Rules 1, 2 and 4 follow the spec verbatim. -/
def cursorSpecClaim (indexableFields : List String) (q : Query) :
    CursorSrc :=
  let dir := if q.reverseFlag then Direction.prev else Direction.next
  match q.indexName with
  | some i => .indexCursor i (q.indexQuery.map BetweenFilter.keyRange) dir
  | none =>
    match q.orderByField with
    | some f => .indexCursor f none dir
    | none =>
      match q.filters.filter
          (fun kv => kv.snd.isSimple && indexableFields.contains kv.fst) with
      | [kv] => .indexCursor kv.fst (some (getKeyRange kv.snd)) dir
      | _ => .storeCursor dir

/-- C5 counterexample: with two literal filter entries on indexed fields,
the claim's rule 3 ("exactly one") falls through to a full-store cursor,
but `_getCursor` pushes the *first* simple filter down and opens a bounded
index cursor on `"a"`. -/
theorem C5_cursor_selection_counterexample :
    getCursor ["a", "b"]
        (Query.mk [("a", .lit 1), ("b", .lit 2)] none none none false
          none none)
      = .indexCursor "a" (some (KeyRange.only 1)) .next
    ∧ cursorSpecClaim ["a", "b"]
        (Query.mk [("a", .lit 1), ("b", .lit 2)] none none none false
          none none)
      = .storeCursor .next
    ∧ (CursorSrc.indexCursor "a" (some (KeyRange.only 1)) .next)
      ≠ .storeCursor .next := by
  refine ⟨rfl, rfl, by decide⟩

/-- The claim's rule 3, amended: the *first* filter entry (in insertion
order) targeting an indexed field with a non-predicate value. -/
def firstSimpleIndexedEntry (indexableFields : List String) :
    Filters → Option (String × FilterVal)
  | [] => none
  | kv :: rest =>
    if kv.snd.isSimple && indexableFields.contains kv.fst then some kv
    else firstSimpleIndexedEntry indexableFields rest

/-- The amended selection algorithm: rules 1, 2 and 4 as in the claim,
rule 3 with "exactly one" replaced by "the first such entry". -/
def cursorSpecAmended (indexableFields : List String) (q : Query) :
    CursorSrc :=
  let dir := if q.reverseFlag then Direction.prev else Direction.next
  match q.indexName with
  | some i => .indexCursor i (q.indexQuery.map BetweenFilter.keyRange) dir
  | none =>
    match q.orderByField with
    | some f => .indexCursor f none dir
    | none =>
      match firstSimpleIndexedEntry indexableFields q.filters with
      | some kv => .indexCursor kv.fst (some (getKeyRange kv.snd)) dir
      | none => .storeCursor dir

theorem firstSimpleIndexedEntry_eq_findSimpleFilter
    (indexableFields : List String) (fs : Filters) :
    firstSimpleIndexedEntry indexableFields fs
      = findSimpleFilter indexableFields fs := by
  induction fs with
  | nil => rfl
  | cons kv rest ih =>
    by_cases h : (kv.snd.isSimple && indexableFields.contains kv.fst) = true
    · rw [firstSimpleIndexedEntry, if_pos h, findSimpleFilter]
      simp only [List.find?_cons, h]
    · rw [firstSimpleIndexedEntry, if_neg h, findSimpleFilter]
      have h' : (kv.snd.isSimple && indexableFields.contains kv.fst) = false :=
        Bool.not_eq_true _ |>.mp h
      simp only [List.find?_cons, h']
      exact ih

/-- C5 amended: for every query state, `_getCursor` follows the claim's
priority order with rule 3 amended to "at least one filter entry targets an
indexed field with a non-predicate value; the first such entry's index is
used, bounded to its value/range", each cursor opened in the requested
direction. -/
theorem C5_cursor_selection_amended (indexableFields : List String)
    (q : Query) :
    cursorSpecAmended indexableFields q = getCursor indexableFields q := by
  unfold cursorSpecAmended getCursor
  rw [firstSimpleIndexedEntry_eq_findSimpleFilter]

/-! ### C9: `clone()` and the prototype chain -/

theorem find?_replaceOwn_ne (E : List (String × V)) (k k' : String) (v : V)
    (h : k' ≠ k) :
    (E.map (fun p => if p.fst = k then (k, v) else p)).find?
        (fun p => p.fst = k')
      = E.find? (fun p => p.fst = k') := by
  induction E with
  | nil => rfl
  | cons p rest ih =>
    by_cases hp : p.fst = k
    · have h1 : ¬ ((k : String) = k') := fun hc => h hc.symm
      have h2 : ¬ (p.fst = k') := by rw [hp]; exact h1
      simp only [List.map_cons, if_pos hp, List.find?_cons,
        decide_eq_false h1, decide_eq_false h2]
      exact ih
    · by_cases hq : p.fst = k'
      · simp only [List.map_cons, if_neg hp, List.find?_cons,
          decide_eq_true hq]
      · simp only [List.map_cons, if_neg hp, List.find?_cons,
          decide_eq_false hq]
        exact ih

theorem find?_appendOwn_ne (E : List (String × V)) (k k' : String) (v : V)
    (h : k' ≠ k) :
    (E ++ [(k, v)]).find? (fun p => p.fst = k')
      = E.find? (fun p => p.fst = k') := by
  induction E with
  | nil =>
    have h1 : ¬ ((k : String) = k') := fun hc => h hc.symm
    simp only [List.nil_append, List.find?_cons, decide_eq_false h1]
  | cons p rest ih =>
    by_cases hq : p.fst = k'
    · simp only [List.cons_append, List.find?_cons, decide_eq_true hq]
    · simp only [List.cons_append, List.find?_cons, decide_eq_false hq]
      exact ih

theorem find?_setOwn_ne (E : List (String × V)) (k k' : String) (v : V)
    (h : k' ≠ k) :
    ((FilterObj.mk E none).setOwn k v).own.find? (fun p => p.fst = k')
      = E.find? (fun p => p.fst = k') := by
  rw [FilterObj.setOwn]
  by_cases hc : (E.find? (fun p => p.fst = k)).isSome
  · simp only [hc, if_true]
    exact find?_replaceOwn_ne E k k' v h
  · simp only [hc, if_false]
    exact find?_appendOwn_ne E k k' v h

/-! ### C10: single-field index pushdown vs. full scan -/

/-- With no offset and no limit, and a callback that never stops early,
`_cursorLogic` yields exactly the filter-passing visited rows. -/
theorem cursorLogic_no_skip_limit (fs : Filters) (rows : List Row) :
    ∀ m s : Nat,
      cursorLogic fs none none (fun _ => false) rows m s
        = rows.filter (fitsFilters fs) := by
  induction rows with
  | nil => intro m s; simp [cursorLogic]
  | cons row rest ih =>
    intro m s
    rw [cursorLogic]
    by_cases hfit : fitsFilters fs row
    · simp only [hfit, if_pos, List.filter_cons_of_pos hfit]
      simp [ih]
    · simp only [hfit, List.filter_cons_of_neg hfit]
      simp [ih]

theorem allRes_no_skip_limit (fs : Filters) (visited : List Row) :
    (Query.mk fs none none none false none none).allRes visited
      = visited.filter (fitsFilters fs) := by
  rw [Query.allRes, Query.yielded]
  exact cursorLogic_no_skip_limit fs visited 0 0

/-- A value accepted by `fits` lies in the filter's native key range. -/
theorem fits_some_containsKey (b : BetweenFilter) (v : Int)
    (h : b.fits (some v) = true) :
    b.keyRange.containsKey (.val v) = true := by
  rw [BetweenFilter.fits] at h
  obtain ⟨h1, h2⟩ := Bool.and_eq_true_iff.mp h
  rw [BetweenFilter.keyRange, KeyRange.containsKey]
  refine Bool.and_eq_true_iff.mpr ⟨?_, ?_⟩
  · cases hl : b.lower with
    | none => cases b.lowerOpen <;> simp [IKey.lt, IKey.le]
    | some l =>
      rw [hl] at h1
      cases ho : b.lowerOpen
      all_goals rw [ho] at h1
      all_goals simp_all [IKey.lt, IKey.le, IKey.val.injEq]
      all_goals omega
  · cases hu : b.upper with
    | none => cases b.upperOpen <;> simp [IKey.lt, IKey.le]
    | some u =>
      rw [hu] at h2
      cases ho : b.upperOpen
      all_goals rw [ho] at h2
      all_goals simp_all [IKey.lt, IKey.le, IKey.val.injEq]
      all_goals omega

/-- If either bound is set, an undefined value never fits. -/
theorem fits_none_eq_false (b : BetweenFilter)
    (h : b.lower ≠ none ∨ b.upper ≠ none) :
    b.fits none = false := by
  rw [BetweenFilter.fits]
  rcases h with h | h
  · cases hl : b.lower with
    | none => exact absurd hl h
    | some l => simp
  · cases hu : b.upper with
    | none => exact absurd hu h
    | some u => cases b.lower <;> simp

/-- A row passing all filters has an index entry, inside the pushed-down
range, on the pushed-down field — provided the pushed entry is a literal or
a range-filter with at least one set bound. -/
theorem fits_implies_inRange (fs : Filters) (key : String) (fv : FilterVal)
    (hmem : (key, fv) ∈ fs)
    (hgood : (∃ v, fv = .lit v)
      ∨ ∃ b, fv = .between b ∧ (b.lower ≠ none ∨ b.upper ≠ none))
    (row : Row) (hfits : fitsFilters fs row = true) :
    rowInIndexRange key (getKeyRange fv) row = true := by
  have hentry := List.all_eq_true.mp hfits (key, fv) hmem
  rcases hgood with ⟨v, rfl⟩ | ⟨b, rfl, hb⟩
  · simp only [beq_iff_eq] at hentry
    rw [rowInIndexRange, hentry, getKeyRange]
    simp [KeyRange.only, KeyRange.containsKey, IKey.le, IKey.lt]
  · rw [rowInIndexRange, getKeyRange]
    cases hg : row.get key with
    | none =>
      rw [hg] at hentry
      have htrue : b.fits none = true := hentry
      rw [fits_none_eq_false b hb] at htrue
      exact absurd htrue (by simp)
    | some v =>
      rw [hg] at hentry
      exact fits_some_containsKey b v hentry

/-- C10 counterexample: for the query `filter({f: Between(null, null)})`
over a store holding one row without the field `f`, the pushdown (which
`_getCursor` always applies here) yields nothing — the row has no index
entry on `f` — while a full-store scan yields the row, since
`Between(null, null).fits(undefined)` is `true`.  The two strategies
produce different result sets. -/
theorem C10_pushdown_counterexample :
    (Query.mk [("f", .between (Between none none))] none none none false
        none none).allRes
      (indexVisited "f" (getKeyRange (.between (Between none none)))
        [[("id", 1)]])
      = []
    ∧ (Query.mk [("f", .between (Between none none))] none none none false
        none none).allRes [[("id", 1)]]
      = [[("id", 1)]]
    ∧ ([] : List Row) ≠ [[("id", 1)]] := by
  refine ⟨rfl, rfl, by decide⟩

/-- C10 amended: with no offset and no limit, if the pushed-down entry is a
literal or a range-filter with at least one set bound, then `all()` over
the bounded index cursor is a permutation of `all()` over the full-store
scan (the pushed entry stays in the filter map and is re-checked in
memory), and `count()` agrees on both.  (The amendment excludes the
degenerate `Between(null, null)` pushdown, which misses rows lacking the
indexed field.) -/
theorem C10_pushdown_equivalence (indexableFields : List String)
    (fs : Filters) (rows : List Row) (key : String) (fv : FilterVal)
    (hfind : findSimpleFilter indexableFields fs = some (key, fv))
    (hgood : (∃ v, fv = .lit v)
      ∨ ∃ b, fv = .between b ∧ (b.lower ≠ none ∨ b.upper ≠ none)) :
    ((Query.mk fs none none none false none none).allRes
        (indexVisited key (getKeyRange fv) rows)).Perm
      ((Query.mk fs none none none false none none).allRes rows)
    ∧ (Query.mk fs none none none false none none).countRes
        (indexVisited key (getKeyRange fv) rows)
      = (Query.mk fs none none none false none none).countRes rows := by
  have hmem : (key, fv) ∈ fs := List.mem_of_find?_eq_some hfind
  have himp := fits_implies_inRange fs key fv hmem hgood
  have hperm :
      ((Query.mk fs none none none false none none).allRes
          (indexVisited key (getKeyRange fv) rows)).Perm
        ((Query.mk fs none none none false none none).allRes rows) := by
    rw [allRes_no_skip_limit, allRes_no_skip_limit, indexVisited]
    have h1 :
        ((List.filter (rowInIndexRange key (getKeyRange fv))
              rows).insertionSort (rowKeyLE key)).filter
            (fitsFilters fs)
          |>.Perm
          ((rows.filter (rowInIndexRange key (getKeyRange fv))).filter
            (fitsFilters fs)) :=
      (List.perm_insertionSort (rowKeyLE key) _).filter _
    refine h1.trans ?_
    rw [List.filter_filter]
    have : ∀ row ∈ rows,
        (fitsFilters fs row && rowInIndexRange key (getKeyRange fv) row)
          = fitsFilters fs row := by
      intro row _
      by_cases hf : fitsFilters fs row
      · rw [hf, himp row hf, Bool.and_self]
      · rw [Bool.not_eq_true] at hf
        rw [hf, Bool.false_and]
    rw [List.filter_congr this]
  exact ⟨hperm, hperm.length_eq⟩

/-- C10 amended, witness: the equivalence at a concrete store and the
pushed-down literal filter `{f: 5}`. -/
theorem C10_pushdown_equivalence_witness :
    ((Query.mk [("f", .lit 5)] none none none false none none).allRes
        (indexVisited "f" (getKeyRange (.lit 5))
          [[("f", 6)], [("f", 5), ("id", 1)], [("id", 2)]])).Perm
      ((Query.mk [("f", .lit 5)] none none none false none none).allRes
        [[("f", 6)], [("f", 5), ("id", 1)], [("id", 2)]])
    ∧ (Query.mk [("f", .lit 5)] none none none false none none).countRes
        (indexVisited "f" (getKeyRange (.lit 5))
          [[("f", 6)], [("f", 5), ("id", 1)], [("id", 2)]])
      = (Query.mk [("f", .lit 5)] none none none false none none).countRes
        [[("f", 6)], [("f", 5), ("id", 1)], [("id", 2)]] :=
  C10_pushdown_equivalence ["f"] [("f", .lit 5)]
    [[("f", 6)], [("f", 5), ("id", 1)], [("id", 2)]] "f" (.lit 5) rfl
    (Or.inl ⟨5, rfl⟩)

/-! ### C6: `Model.create` -/

theorem find?_map_set_self (i : List (String × V)) (f : String) (v : V)
    (h : (i.find? (fun p => p.fst = f)).isSome = true) :
    (i.map (fun p => if p.fst = f then (f, v) else p)).find?
        (fun p => p.fst = f)
      = some (f, v) := by
  induction i with
  | nil => simp at h
  | cons p rest ih =>
    by_cases hp : p.fst = f
    · simp [List.find?_cons, if_pos hp]
    · simp only [List.find?_cons, decide_eq_false hp] at h
      simp only [List.map_cons, if_neg hp, List.find?_cons,
        decide_eq_false hp]
      exact ih h

theorem find?_append_set_self (i : List (String × V)) (f : String) (v : V)
    (h : i.find? (fun p => p.fst = f) = none) :
    (i ++ [(f, v)]).find? (fun p => p.fst = f) = some (f, v) := by
  induction i with
  | nil => simp [List.find?_cons]
  | cons p rest ih =>
    by_cases hp : p.fst = f
    · rw [List.find?_cons, decide_eq_true hp] at h
      exact absurd h (by simp)
    · rw [List.find?_cons, decide_eq_false hp] at h
      rw [List.cons_append, List.find?_cons, decide_eq_false hp]
      exact ih h

/-- Writing a field then reading it back. -/
theorem Inst.get_set_self (i : Inst V) (f : String) (v : V) :
    (i.set f v).get f = some v := by
  rw [Inst.set]
  by_cases hc : (i.find? (fun p => p.fst = f)).isSome = true
  · rw [if_pos hc, Inst.get, find?_map_set_self i f v hc]
    rfl
  · rw [if_neg hc, Inst.get,
      find?_append_set_self i f v (by
        cases hx : i.find? (fun p => p.fst = f)
        · rfl
        · rw [hx] at hc; simp at hc)]
    rfl

/-- Writing one field leaves every other field unchanged. -/
theorem Inst.get_set_ne (i : Inst V) (f f' : String) (v : V)
    (h : f' ≠ f) :
    (i.set f v).get f' = i.get f' := by
  rw [Inst.set, Inst.get, Inst.get]
  by_cases hc : (i.find? (fun p => p.fst = f)).isSome = true
  · rw [if_pos hc, find?_replaceOwn_ne i f f' v h]
  · rw [if_neg hc, find?_appendOwn_ne i f f' v h]

/-- The defaults loop never touches an already-set field, and never logs a
generator invocation for it. -/
theorem applyDefaults_keeps (fields : List (String × FieldOpts V)) :
    ∀ (inst : Inst V) (genLog : List String) (inst' : Inst V)
      (genLog' : List String) (f : String) (v : V),
      applyDefaults fields inst genLog = .ok (inst', genLog') →
      inst.get f = some v →
      inst'.get f = some v ∧ genLog'.count f = genLog.count f := by
  induction fields with
  | nil =>
    intro inst genLog inst' genLog' f v h hget
    rw [applyDefaults] at h
    simp only [Except.ok.injEq, Prod.mk.injEq] at h
    obtain ⟨h1, h2⟩ := h
    subst h1; subst h2
    exact ⟨hget, rfl⟩
  | cons p rest ih =>
    intro inst genLog inst' genLog' f v h hget
    obtain ⟨fname, opts⟩ := p
    rw [applyDefaults] at h
    by_cases hdef : (inst.get fname).isNone = true
    · have hne : f ≠ fname := by
        intro e; subst e; rw [hget] at hdef; simp at hdef
      rw [if_pos hdef] at h
      cases hd : opts.default with
      | none =>
        rw [hd] at h
        by_cases hn : (!opts.nullable) = true
        · rw [if_pos hn] at h
          exact absurd h (by simp)
        · rw [if_neg hn] at h
          exact ih inst genLog inst' genLog' f v h hget
      | some d =>
        cases d with
        | value w =>
          rw [hd] at h
          exact ih _ _ _ _ f v h
            (by rw [Inst.get_set_ne inst fname f w hne]; exact hget)
        | gen g =>
          rw [hd] at h
          obtain ⟨h1, h2⟩ := ih _ _ _ _ f v h
            (by rw [Inst.get_set_ne inst fname f (g ()) hne]; exact hget)
          refine ⟨h1, ?_⟩
          rw [h2, List.count_append]
          have h0 : List.count f [fname] = 0 := by
            simp [List.count_cons, hne]
          omega
    · rw [if_neg hdef] at h
      exact ih inst genLog inst' genLog' f v h hget

/-- The defaults loop materializes the first matching descriptor's default
into an unset field: a static default verbatim, a generator default by
invoking it exactly once. -/
theorem applyDefaults_ok_default (fields : List (String × FieldOpts V)) :
    ∀ (inst : Inst V) (genLog : List String) (inst' : Inst V)
      (genLog' : List String) (f : String) (opts : FieldOpts V),
      applyDefaults fields inst genLog = .ok (inst', genLog') →
      fields.find? (fun p => p.fst = f) = some (f, opts) →
      inst.get f = none →
      (∀ v, opts.default = some (.value v) → inst'.get f = some v)
      ∧ (∀ g, opts.default = some (.gen g) →
          inst'.get f = some (g ()) ∧ genLog'.count f = genLog.count f + 1) := by
  induction fields with
  | nil =>
    intro inst genLog inst' genLog' f opts h hfind _
    exact absurd hfind (by simp)
  | cons p rest ih =>
    intro inst genLog inst' genLog' f opts h hfind hget
    obtain ⟨fname, fopts⟩ := p
    rw [applyDefaults] at h
    by_cases hf : fname = f
    · subst hf
      rw [List.find?_cons,
        decide_eq_true (show (fname : String) = fname from rfl)] at hfind
      simp only [Option.some.injEq, Prod.mk.injEq] at hfind
      obtain ⟨-, rfl⟩ := hfind
      rw [if_pos (by rw [hget]; rfl)] at h
      constructor
      · intro v hv
        rw [hv] at h
        exact (applyDefaults_keeps rest _ _ _ _ fname v h
          (Inst.get_set_self inst fname v)).1
      · intro g hg
        rw [hg] at h
        obtain ⟨h1, h2⟩ := applyDefaults_keeps rest _ _ _ _ fname (g ()) h
          (Inst.get_set_self inst fname (g ()))
        refine ⟨h1, ?_⟩
        rw [h2, List.count_append]
        have h0 : List.count fname [fname] = 1 := by
          simp [List.count_cons]
        omega
    · rw [List.find?_cons, decide_eq_false hf] at hfind
      by_cases hdef : (inst.get fname).isNone = true
      · rw [if_pos hdef] at h
        cases hd : fopts.default with
        | none =>
          rw [hd] at h
          by_cases hn : (!fopts.nullable) = true
          · rw [if_pos hn] at h
            exact absurd h (by simp)
          · rw [if_neg hn] at h
            exact ih inst genLog inst' genLog' f opts h hfind hget
        | some d =>
          cases d with
          | value w =>
            rw [hd] at h
            exact ih _ _ _ _ f opts h hfind
              (by rw [Inst.get_set_ne inst fname f w
                (fun e => hf e.symm)]; exact hget)
          | gen g0 =>
            rw [hd] at h
            obtain ⟨ha, hb⟩ := ih _ _ _ _ f opts h hfind
              (by rw [Inst.get_set_ne inst fname f (g0 ())
                (fun e => hf e.symm)]; exact hget)
            refine ⟨ha, ?_⟩
            intro g hg
            obtain ⟨hb1, hb2⟩ := hb g hg
            refine ⟨hb1, ?_⟩
            have hfne : f ≠ fname := fun e => hf e.symm
            rw [hb2, List.count_append]
            have h0 : List.count f [fname] = 0 := by
              simp [List.count_cons, hfne]
            omega
      · rw [if_neg hdef] at h
        exact ih inst genLog inst' genLog' f opts h hfind hget

/-- If some declared field is unset, default-less and non-nullable, the
defaults loop throws `ModelError("Field ... is not nullable")` naming a
field with exactly those properties (the first such field in declaration
order). -/
theorem applyDefaults_error_first (fields : List (String × FieldOpts V)) :
    ∀ (inst : Inst V) (genLog : List String) (f : String)
      (opts : FieldOpts V),
      fields.find? (fun p => p.fst = f) = some (f, opts) →
      inst.get f = none → opts.default = none → opts.nullable = false →
      ∃ f' opts',
        applyDefaults fields inst genLog = .error (notNullableError f')
        ∧ (f', opts') ∈ fields ∧ inst.get f' = none
        ∧ opts'.default = none ∧ opts'.nullable = false := by
  induction fields with
  | nil =>
    intro inst genLog f opts hfind _ _ _
    exact absurd hfind (by simp)
  | cons p rest ih =>
    intro inst genLog f opts hfind hget hdef hnul
    obtain ⟨fname, fopts⟩ := p
    by_cases hset : (inst.get fname).isNone = true
    · cases hd : fopts.default with
      | none =>
        by_cases hn : fopts.nullable = false
        · -- the head field itself is an offender, and it raises the error
          refine ⟨fname, fopts, ?_, List.mem_cons_self _ _, ?_, hd, hn⟩
          · rw [applyDefaults, if_pos hset, hd, hn]
            rfl
          · cases hx : inst.get fname
            · rfl
            · rw [hx] at hset; simp at hset
        · -- head is nullable, so it is not the hypothesis field: recurse
          have ht : fopts.nullable = true := by
            revert hn; cases fopts.nullable <;> simp
          have hne : fname ≠ f := by
            intro e
            subst e
            rw [List.find?_cons, decide_eq_true
              (show (fname : String) = fname from rfl)] at hfind
            simp only [Option.some.injEq, Prod.mk.injEq] at hfind
            obtain ⟨-, rfl⟩ := hfind
            exact hn hnul
          rw [List.find?_cons, decide_eq_false hne] at hfind
          obtain ⟨f', opts', h1, h2, h3, h4, h5⟩ :=
            ih inst genLog f opts hfind hget hdef hnul
          refine ⟨f', opts', ?_, List.mem_cons_of_mem _ h2, h3, h4, h5⟩
          rw [applyDefaults, if_pos hset, hd, ht]
          exact h1
      | some d =>
        have hne : fname ≠ f := by
          intro e
          subst e
          rw [List.find?_cons, decide_eq_true
            (show (fname : String) = fname from rfl)] at hfind
          simp only [Option.some.injEq, Prod.mk.injEq] at hfind
          obtain ⟨-, rfl⟩ := hfind
          rw [hd] at hdef
          exact absurd hdef (by simp)
        rw [List.find?_cons, decide_eq_false hne] at hfind
        cases d with
        | value w =>
          obtain ⟨f', opts', h1, h2, h3, h4, h5⟩ :=
            ih (inst.set fname w) genLog f opts hfind
              (by rw [Inst.get_set_ne inst fname f w
                (fun e => hne e.symm)]; exact hget) hdef hnul
          have h3' : inst.get f' = none := by
            by_cases he : f' = fname
            · subst he
              rw [Inst.get_set_self] at h3
              exact absurd h3 (by simp)
            · rw [Inst.get_set_ne inst fname f' w he] at h3
              exact h3
          refine ⟨f', opts', ?_, List.mem_cons_of_mem _ h2, h3', h4, h5⟩
          rw [applyDefaults, if_pos hset, hd]
          exact h1
        | gen g =>
          obtain ⟨f', opts', h1, h2, h3, h4, h5⟩ :=
            ih (inst.set fname (g ())) (genLog ++ [fname]) f opts hfind
              (by rw [Inst.get_set_ne inst fname f (g ())
                (fun e => hne e.symm)]; exact hget) hdef hnul
          have h3' : inst.get f' = none := by
            by_cases he : f' = fname
            · subst he
              rw [Inst.get_set_self] at h3
              exact absurd h3 (by simp)
            · rw [Inst.get_set_ne inst fname f' (g ()) he] at h3
              exact h3
          refine ⟨f', opts', ?_, List.mem_cons_of_mem _ h2, h3', h4, h5⟩
          rw [applyDefaults, if_pos hset, hd]
          exact h1
    · have hne : fname ≠ f := by
        intro e
        subst e
        rw [hget] at hset
        simp at hset
      rw [List.find?_cons, decide_eq_false hne] at hfind
      obtain ⟨f', opts', h1, h2, h3, h4, h5⟩ :=
        ih inst genLog f opts hfind hget hdef hnul
      refine ⟨f', opts', ?_, List.mem_cons_of_mem _ h2, h3, h4, h5⟩
      rw [applyDefaults, if_neg hset]
      exact h1

/-- C6: `create(values)` materializes every declared field that `values`
left unset — a static default verbatim, a generator default by invoking the
generator exactly once per creation — and if an unset field is non-nullable
with no default, it throws `ModelError("Field <f> is not nullable")` naming
such a field, with no storage write.  Otherwise the record is persisted
insert-only: `store.add` fails (and leaves the store unchanged) when a
record with the same primary key exists, else appends the record, and the
fully-materialized record is returned. -/
theorem C6_create (V : Type) [DecidableEq V]
    (fields : List (String × FieldOpts V)) (primaryKeys : List String)
    (values : Inst V) (store : Store V) :
    -- (a) static defaults fill unset fields
    (∀ (inst : Inst V) (store' : Store V) (genLog : List String)
        (f : String) (opts : FieldOpts V) (v : V),
      Model.create fields primaryKeys values store = (.ok inst, store', genLog) →
      fields.find? (fun p => p.fst = f) = some (f, opts) →
      values.get f = none → opts.default = some (.value v) →
      inst.get f = some v)
    -- (b) generator defaults fill unset fields, invoked exactly once
    ∧ (∀ (inst : Inst V) (store' : Store V) (genLog : List String)
        (f : String) (opts : FieldOpts V) (g : Unit → V),
      Model.create fields primaryKeys values store = (.ok inst, store', genLog) →
      fields.find? (fun p => p.fst = f) = some (f, opts) →
      values.get f = none → opts.default = some (.gen g) →
      inst.get f = some (g ()) ∧ genLog.count f = 1)
    -- (c) unset + non-nullable + no default: named validation error, no write
    ∧ ((∃ (f : String) (opts : FieldOpts V),
          fields.find? (fun p => p.fst = f) = some (f, opts)
          ∧ values.get f = none ∧ opts.default = none
          ∧ opts.nullable = false) →
        ∃ (f' : String) (opts' : FieldOpts V),
          (Model.create fields primaryKeys values store).fst
            = .error (.validation (notNullableError f'))
          ∧ (Model.create fields primaryKeys values store).snd.fst = store
          ∧ (f', opts') ∈ fields ∧ values.get f' = none
          ∧ opts'.default = none ∧ opts'.nullable = false)
    -- (d) successful create appends, and no stored record had its key
    ∧ (∀ (inst : Inst V) (store' : Store V) (genLog : List String),
      Model.create fields primaryKeys values store = (.ok inst, store', genLog) →
      store' = store ++ [inst]
      ∧ ∀ prior ∈ store,
          instKeys primaryKeys prior ≠ instKeys primaryKeys inst)
    -- (e) an existing record with the same key makes the insert fail
    ∧ (∀ (inst : Inst V) (genLog : List String),
      applyDefaults fields values [] = .ok (inst, genLog) →
      (∃ prior ∈ store,
        instKeys primaryKeys prior = instKeys primaryKeys inst) →
      Model.create fields primaryKeys values store
        = (.error .keyExists, store, genLog)) := by
  refine ⟨?_, ?_, ?_, ?_, ?_⟩
  · intro inst store' genLog f opts v hr hfind hunset hdv
    rw [Model.create] at hr
    cases hA : applyDefaults fields values [] with
    | error e =>
      simp only [hA] at hr
      exact absurd hr (by simp)
    | ok p =>
      obtain ⟨inst0, log0⟩ := p
      simp only [hA] at hr
      cases hS : storeAdd primaryKeys store inst0 with
      | error e =>
        simp only [hS] at hr
        exact absurd hr (by simp)
      | ok s' =>
        simp only [hS, Prod.mk.injEq, Except.ok.injEq] at hr
        obtain ⟨rfl, -, rfl⟩ := hr
        exact (applyDefaults_ok_default fields values [] inst0 log0 f opts
          hA hfind hunset).1 v hdv
  · intro inst store' genLog f opts g hr hfind hunset hdg
    rw [Model.create] at hr
    cases hA : applyDefaults fields values [] with
    | error e =>
      simp only [hA] at hr
      exact absurd hr (by simp)
    | ok p =>
      obtain ⟨inst0, log0⟩ := p
      simp only [hA] at hr
      cases hS : storeAdd primaryKeys store inst0 with
      | error e =>
        simp only [hS] at hr
        exact absurd hr (by simp)
      | ok s' =>
        simp only [hS, Prod.mk.injEq, Except.ok.injEq] at hr
        obtain ⟨rfl, -, rfl⟩ := hr
        have h := (applyDefaults_ok_default fields values [] inst0 log0 f
          opts hA hfind hunset).2 g hdg
        simpa using h
  · intro hex
    obtain ⟨f, opts, hfind, hunset, hdef, hnul⟩ := hex
    obtain ⟨f', opts', h1, h2, h3, h4, h5⟩ :=
      applyDefaults_error_first fields values [] f opts hfind hunset hdef
        hnul
    refine ⟨f', opts', ?_, ?_, h2, h3, h4, h5⟩
    · rw [Model.create, h1]
    · rw [Model.create, h1]
  · intro inst store' genLog hr
    rw [Model.create] at hr
    cases hA : applyDefaults fields values [] with
    | error e =>
      simp only [hA] at hr
      exact absurd hr (by simp)
    | ok p =>
      obtain ⟨inst0, log0⟩ := p
      simp only [hA] at hr
      by_cases hc : (store.any (fun r =>
          decide (instKeys primaryKeys r = instKeys primaryKeys inst0)))
          = true
      · have hS : storeAdd primaryKeys store inst0 = .error .keyExists := by
          rw [storeAdd, if_pos hc]
        simp only [hS] at hr
        exact absurd hr (by simp)
      · have hS : storeAdd primaryKeys store inst0
            = .ok (store ++ [inst0]) := by
          rw [storeAdd, if_neg hc]
        simp only [hS, Prod.mk.injEq, Except.ok.injEq] at hr
        obtain ⟨rfl, hst, -⟩ := hr
        refine ⟨hst.symm, ?_⟩
        intro prior hmem heq
        exact hc (List.any_eq_true.mpr
          ⟨prior, hmem, decide_eq_true heq⟩)
  · intro inst genLog hA hex
    obtain ⟨prior, hmem, heq⟩ := hex
    have hS : storeAdd primaryKeys store inst = .error .keyExists := by
      rw [storeAdd,
        if_pos (List.any_eq_true.mpr ⟨prior, hmem, decide_eq_true heq⟩)]
    rw [Model.create]
    simp only [hA, hS]

/-- A concrete record type for exercising `Model.create`: a non-nullable
default-less primary key `id`, a field `bal` with static default `5`, and a
field `tag` with a generator default producing `7`. -/
def exampleFields : List (String × FieldOpts Int) :=
  [("id", ⟨true, false, false, none, true⟩),
   ("bal", ⟨false, false, true, some (.value 5), true⟩),
   ("tag", ⟨false, false, true, some (.gen (fun _ => 7)), true⟩)]

/-- The record `create({id: 1})` materializes over `exampleFields`. -/
def exampleInst : Inst Int := [("id", 1), ("bal", 5), ("tag", 7)]

/-- C6 witness: `create({id: 1})` on an empty store fills `bal` with its
static default and `tag` with its generator's result (logged exactly once),
and appends the record; `create({})` fails with the validation error naming
the non-nullable `id`. -/
theorem C6_create_witness :
    (exampleInst.get "bal" = some 5)
    ∧ (exampleInst.get "tag" = some ((fun _ => (7 : Int)) ())
        ∧ (["tag"] : List String).count "tag" = 1)
    ∧ ([exampleInst] : Store Int) = [] ++ [exampleInst]
    ∧ (∃ (f' : String) (opts' : FieldOpts Int),
        (Model.create exampleFields ["id"] ([] : Inst Int) []).fst
          = .error (.validation (notNullableError f'))
        ∧ (Model.create exampleFields ["id"] ([] : Inst Int) []).snd.fst
          = []
        ∧ (f', opts') ∈ exampleFields ∧ Inst.get ([] : Inst Int) f' = none
        ∧ opts'.default = none ∧ opts'.nullable = false) := by
  have h1 := C6_create Int exampleFields ["id"] [("id", 1)] []
  have h2 := C6_create Int exampleFields ["id"] ([] : Inst Int) []
  refine ⟨?_, ?_, ?_, ?_⟩
  · exact h1.1 exampleInst [exampleInst] ["tag"] "bal"
      ⟨false, false, true, some (.value 5), true⟩ 5 rfl rfl rfl rfl
  · exact h1.2.1 exampleInst [exampleInst] ["tag"] "tag"
      ⟨false, false, true, some (.gen (fun _ => 7)), true⟩ (fun _ => 7)
      rfl rfl rfl rfl
  · exact ((h1.2.2.2.1) exampleInst [exampleInst] ["tag"] rfl).1
  · exact h2.2.2.1 ⟨"id", ⟨true, false, false, none, true⟩, rfl, rfl, rfl,
      rfl⟩

/-! ### C9 (continued): the revised clone theorem

The own-entry isolation conjuncts are stated for *every* read key,
including the written one, so a model in which `Object.assign` wrote
through to the other map would refute them; only the inherited-visibility
conjunct restricts the read to keys other than the written one. -/

theorem find?_setOwn_self (E : List (String × V)) (k : String) (v : V) :
    ((FilterObj.mk E none).setOwn k v).own.find? (fun p => p.fst = k)
      = some (k, v) := by
  rw [FilterObj.setOwn]
  by_cases hc : (E.find? (fun p => p.fst = k)).isSome
  · simp only [hc, if_true]
    exact find?_map_set_self E k v hc
  · simp only [hc, if_false]
    exact find?_append_set_self E k v (by
      cases hx : E.find? (fun p => p.fst = k)
      · rfl
      · rw [hx] at hc; simp at hc)

/-- C9: after `q2 = q1.clone()`, the clone's filter map is a fresh object
(reference 1) with no own entries whose prototype is the original's filter
map.  A write at any key `k`:
* into `q1` creates no own entry of `q2` at any key (conjunct 2, read key
  `k'` unrestricted, including `k' = k`) while landing in `q1`'s own map
  (conjunct 5);
* into `q2` changes none of `q1`'s own entries at any key (conjunct 3,
  `k'` unrestricted, including `k' = k`) while landing in `q2`'s own map
  (conjunct 4).
Inherited entries of `q1` are visible from `q2` through the prototype
chain (conjunct 6), and stay visible after `q1` gains an entry at a
different key (conjunct 7). -/
theorem C9_clone_prototype (V : Type) (E : List (String × V))
    (k k' : String) (v : V) :
    (Heap.create ([⟨E, none⟩] : Heap V) 0).snd = 1
    ∧ (((Heap.create ([⟨E, none⟩] : Heap V) 0).fst.assign 0 k v).ownLookup
        1 k' = none)
    ∧ (((Heap.create ([⟨E, none⟩] : Heap V) 0).fst.assign 1 k v).ownLookup
          0 k'
        = (Heap.create ([⟨E, none⟩] : Heap V) 0).fst.ownLookup 0 k')
    ∧ (((Heap.create ([⟨E, none⟩] : Heap V) 0).fst.assign 1 k v).ownLookup
        1 k = some v)
    ∧ (((Heap.create ([⟨E, none⟩] : Heap V) 0).fst.assign 0 k v).ownLookup
        0 k = some v)
    ∧ ((Heap.create ([⟨E, none⟩] : Heap V) 0).fst.protoLookup 2 1 k'
        = (E.find? (fun p => p.fst = k')).map (fun p => p.snd))
    ∧ (k' ≠ k →
        ((Heap.create ([⟨E, none⟩] : Heap V) 0).fst.assign 0 k
            v).protoLookup 2 1 k'
          = (E.find? (fun p => p.fst = k')).map (fun p => p.snd)) := by
  have hassign0 :
      ((Heap.create ([⟨E, none⟩] : Heap V) 0).fst.assign 0 k v)
        = [(FilterObj.mk E none).setOwn k v, ⟨[], some 0⟩] := by
    simp [Heap.create, Heap.assign, List.singleton_append]
  refine ⟨rfl, ?_, ?_, ?_, ?_, ?_, ?_⟩
  · simp [Heap.create, Heap.assign, Heap.ownLookup, FilterObj.setOwn]
  · simp [Heap.create, Heap.assign, Heap.ownLookup, FilterObj.setOwn]
  · simp [Heap.create, Heap.assign, Heap.ownLookup, FilterObj.setOwn,
      List.find?_cons]
  · rw [hassign0, Heap.ownLookup]
    simp only [List.getElem?_cons_zero]
    rw [find?_setOwn_self E k v]
    rfl
  · simp only [Heap.create, List.singleton_append, Heap.protoLookup,
      List.getElem?_cons_succ, List.getElem?_cons_zero, List.find?_nil]
    cases E.find? (fun p => p.fst = k') <;> rfl
  · intro hkk
    rw [hassign0]
    simp only [Heap.protoLookup, List.getElem?_cons_succ,
      List.getElem?_cons_zero, List.find?_nil]
    rw [find?_setOwn_ne E k k' v hkk]
    cases E.find? (fun p => p.fst = k') <;> rfl

/-- C9 witness: the clone statement at the concrete original filter map
`{a: 1}`, exercising both the same-key case (the entry `b := 2` is written
to one map and read back at the same key `b` from both) and the
inherited-key case (reading `a` through the prototype chain after writing
`b`). -/
theorem C9_clone_prototype_witness :
    (Heap.create ([⟨[("a", 1)], none⟩] : Heap Nat) 0).snd = 1
    ∧ (((Heap.create ([⟨[("a", 1)], none⟩] : Heap Nat) 0).fst.assign 0 "b"
        2).ownLookup 1 "b" = none)
    ∧ (((Heap.create ([⟨[("a", 1)], none⟩] : Heap Nat) 0).fst.assign 1 "b"
          2).ownLookup 0 "b"
        = (Heap.create ([⟨[("a", 1)], none⟩] : Heap Nat) 0).fst.ownLookup
            0 "b")
    ∧ (((Heap.create ([⟨[("a", 1)], none⟩] : Heap Nat) 0).fst.assign 1 "b"
        2).ownLookup 1 "b" = some 2)
    ∧ (((Heap.create ([⟨[("a", 1)], none⟩] : Heap Nat) 0).fst.assign 0 "b"
        2).ownLookup 0 "b" = some 2)
    ∧ ((Heap.create ([⟨[("a", 1)], none⟩] : Heap Nat) 0).fst.protoLookup 2
          1 "a"
        = some 1)
    ∧ (((Heap.create ([⟨[("a", 1)], none⟩] : Heap Nat) 0).fst.assign 0 "b"
          2).protoLookup 2 1 "a"
        = some 1) := by
  have hsame := C9_clone_prototype Nat [("a", 1)] "b" "b" 2
  have hinh := C9_clone_prototype Nat [("a", 1)] "b" "a" 2
  refine ⟨hsame.1, hsame.2.1, hsame.2.2.1, hsame.2.2.2.1,
    hsame.2.2.2.2.1, ?_, ?_⟩
  · rw [hinh.2.2.2.2.2.1]; rfl
  · rw [hinh.2.2.2.2.2.2 (by decide)]; rfl
